import Mathlib

/-!
Verification of the core logic of the Electricity Bill Tracker
(`src/electricity_bill.py`), shallowly embedded in Lean 4.

The program keeps an append-only ledger of meter readings (`history_data`),
a device registry (`devices_data`), and a stored initial reading.  Dates are
stored as `"dd-MM-yyyy"` strings and compared through `QDate`; here a date is
a `(day, month, year)` record and `QDate` comparison (Julian-day order on
valid dates) is the lexicographic order on `(year, month, day)`.  Python
floats are modelled as rationals, fallible parses as `Option`, and a file
write that may fail as a boolean `writeOk` discriminator.
-/

namespace EBill

/-- A calendar date, as parsed from the stored `"dd-MM-yyyy"` string. -/
structure Date where
  day : ℕ
  month : ℕ
  year : ℕ
deriving DecidableEq

/-- Strict `QDate` order: Julian-day comparison of valid dates is
lexicographic on `(year, month, day)`. -/
def Date.lt (a b : Date) : Prop :=
  a.year < b.year ∨ (a.year = b.year ∧
    (a.month < b.month ∨ (a.month = b.month ∧ a.day < b.day)))

/-- Non-strict `QDate` order. -/
def Date.le (a b : Date) : Prop :=
  a.year < b.year ∨ (a.year = b.year ∧
    (a.month < b.month ∨ (a.month = b.month ∧ a.day ≤ b.day)))

instance : DecidableRel Date.lt := fun a b => by
  unfold Date.lt; infer_instance

instance : DecidableRel Date.le := fun a b => by
  unfold Date.le; infer_instance

theorem Date.le_refl (a : Date) : Date.le a a := by
  unfold Date.le; omega

theorem Date.le_trans {a b c : Date} (h1 : Date.le a b) (h2 : Date.le b c) :
    Date.le a c := by
  unfold Date.le at *; omega

theorem Date.le_total (a b : Date) : Date.le a b ∨ Date.le b a := by
  unfold Date.le; omega

theorem Date.lt_iff_not_le {a b : Date} : Date.lt a b ↔ ¬ Date.le b a := by
  unfold Date.lt Date.le; omega

/-- One row of `history_data`: the dict built in `save_entry`. -/
structure Entry where
  date : Date
  previous_reading : ℚ
  new_reading : ℚ
  units : ℚ
  unit_cost : ℚ
  total_cost : ℚ
deriving DecidableEq

/-- `self.unit_cost = 12` (₹12 per unit), fixed in `__init__`. -/
def unit_cost : ℚ := 12

/-- Python's `max(iterable, key=...)` specialised to entries keyed by date:
scan left to right, replace the current maximum only on a strictly larger
key (so the first maximal entry wins, as in CPython). -/
def maxByDate : Entry → List Entry → Entry
  | e, [] => e
  | e, x :: xs => maxByDate (if Date.lt e.date x.date then x else e) xs

/-- `get_initial_reading`: with history, the `new_reading` of the entry with
the maximum date; with no history, the initial-reading file's value when it
is present and readable (`initialFile = some r`), else `0.0`. -/
def get_initial_reading (history : List Entry) (initialFile : Option ℚ) : ℚ :=
  match history with
  | e :: rest => (maxByDate e rest).new_reading
  | [] =>
    match initialFile with
    | some r => r
    | none => 0

theorem maxByDate_mem (e : Entry) (l : List Entry) :
    maxByDate e l = e ∨ maxByDate e l ∈ l := by
  induction l generalizing e with
  | nil => exact Or.inl rfl
  | cons x xs ih =>
    simp only [maxByDate]
    by_cases hc : Date.lt e.date x.date
    · rw [if_pos hc]
      rcases ih x with h | h
      · rw [h]; simp
      · simp [h]
    · rw [if_neg hc]
      rcases ih e with h | h
      · exact Or.inl h
      · simp [h]

theorem maxByDate_ge (e : Entry) (l : List Entry) :
    Date.le e.date (maxByDate e l).date ∧
      ∀ x ∈ l, Date.le x.date (maxByDate e l).date := by
  induction l generalizing e with
  | nil => exact ⟨Date.le_refl _, by simp⟩
  | cons x xs ih =>
    simp only [maxByDate]
    by_cases hc : Date.lt e.date x.date
    · rw [if_pos hc]
      obtain ⟨h1, h2⟩ := ih x
      refine ⟨?_, ?_⟩
      · have h : Date.le e.date x.date := by
          unfold Date.lt at hc; unfold Date.le; omega
        exact Date.le_trans h h1
      · intro y hy
        rcases List.mem_cons.mp hy with rfl | hy
        · exact h1
        · exact h2 y hy
    · rw [if_neg hc]
      obtain ⟨h1, h2⟩ := ih e
      refine ⟨h1, ?_⟩
      intro y hy
      rcases List.mem_cons.mp hy with rfl | hy
      · have h : Date.le y.date e.date := by
          rw [Date.lt_iff_not_le, not_not] at hc
          exact hc
        exact Date.le_trans h h1
      · exact h2 y hy

/-- Claim C1: `currentReading()` returns the `new_reading` of the ledger
entry with the maximum date whenever the ledger is non-empty (there is a
maximal-date entry in the ledger whose `new_reading` is returned), and on an
empty ledger it returns the stored initial reading when present, else 0. -/
theorem get_initial_reading_spec (history : List Entry) (initialFile : Option ℚ) :
    (history ≠ [] →
      ∃ e ∈ history, (∀ x ∈ history, Date.le x.date e.date) ∧
        get_initial_reading history initialFile = e.new_reading) ∧
    (history = [] →
      get_initial_reading history initialFile = initialFile.getD 0) := by
  constructor
  · intro hne
    match history with
    | [] => exact absurd rfl hne
    | e :: rest =>
      refine ⟨maxByDate e rest, ?_, ?_, rfl⟩
      · rcases maxByDate_mem e rest with h | h
        · rw [h]; exact List.mem_cons_self _ _
        · exact List.mem_cons_of_mem _ h
      · intro x hx
        obtain ⟨h1, h2⟩ := maxByDate_ge e rest
        rcases List.mem_cons.mp hx with rfl | hx
        · exact h1
        · exact h2 x hx
  · intro h
    subst h
    cases initialFile <;> rfl

/-- Two concrete ledger entries: dated 10-01-2024 and 05-01-2024, appended
out of chronological order (the spec's own example). -/
def entryJan10 : Entry :=
  { date := ⟨10, 1, 2024⟩, previous_reading := 100, new_reading := 150,
    units := 50, unit_cost := 12, total_cost := 600 }

def entryJan05 : Entry :=
  { date := ⟨5, 1, 2024⟩, previous_reading := 150, new_reading := 120,
    units := 0, unit_cost := 12, total_cost := 0 }

/-- Witness for C1 at the spec's example: with entries appended in order
[10-01-2024, 05-01-2024], the current reading is the `new_reading` of a
maximal-date entry (the 10-01-2024 one, not the last appended). -/
theorem get_initial_reading_spec_witness :
    (∃ e ∈ [entryJan05, entryJan10],
      (∀ x ∈ [entryJan05, entryJan10], Date.le x.date e.date) ∧
        get_initial_reading [entryJan05, entryJan10] none = e.new_reading) ∧
    get_initial_reading [] (some 5) = 5 := by
  constructor
  · exact (get_initial_reading_spec [entryJan05, entryJan10] none).1 (by simp)
  · exact (get_initial_reading_spec [] (some 5)).2 rfl

/-- The single error case of the billing calculator. -/
inductive BillError where
  | InvalidReading
deriving DecidableEq

/-- `calculate_bill` (and the identical arithmetic in `save_entry`):
`consumption = new_reading - current_reading`; negative consumption raises
`ValueError` ("New reading must be higher than current reading"); otherwise
`total_cost = consumption * unit_cost`.  The unit cost is a parameter here;
the app fixes it at `unit_cost = 12`. -/
def calculate_bill (previousReading newReading unitCost : ℚ) :
    Except BillError (ℚ × ℚ) :=
  let consumption := newReading - previousReading
  if consumption < 0 then .error .InvalidReading
  else .ok (consumption, consumption * unitCost)

/-- Claim C2: for all reals `a ≤ b`, billing from previous reading `a`, new
reading `b`, unit cost `c` yields units `b - a` and total cost `(b - a) * c`;
for every `b < a` it fails with `InvalidReading`. -/
theorem calculate_bill_spec (a b c : ℚ) :
    (a ≤ b → calculate_bill a b c = .ok (b - a, (b - a) * c)) ∧
    (b < a → calculate_bill a b c = .error .InvalidReading) := by
  constructor
  · intro h
    unfold calculate_bill
    rw [if_neg (by linarith)]
  · intro h
    unfold calculate_bill
    rw [if_pos (by linarith)]

/-- Witness for C2 at `a = 100, b = 150, c = 12` and `a = 150, b = 120`. -/
theorem calculate_bill_spec_witness :
    calculate_bill 100 150 12 = .ok (50, 600) ∧
    calculate_bill 150 120 12 = .error .InvalidReading := by
  constructor
  · have h := (calculate_bill_spec 100 150 12).1 (by norm_num)
    rw [h]; norm_num
  · exact (calculate_bill_spec 150 120 12).2 (by norm_num)

/-- `_get_ordinal`'s suffix: `'th'` when `11 <= n % 100 <= 13`, else
`['th','st','nd','rd','th'][min(n % 10, 4)]`. -/
def ordinal_suffix (n : ℕ) : String :=
  if 11 ≤ n % 100 ∧ n % 100 ≤ 13 then "th"
  else ["th", "st", "nd", "rd", "th"].getD (min (n % 10) 4) "th"

/-- `_get_ordinal(n)` returns `f"{n}{suffix}"`. -/
def get_ordinal (n : ℕ) : String := toString n ++ ordinal_suffix n

/-- Claim C8: for every positive `n`, the ordinal label is `n` followed by
"th" when `n % 100` is in 11..13, otherwise by the suffix determined by the
last digit (1→"st", 2→"nd", 3→"rd", 0 or 4..9→"th"); in particular it
produces "1st","2nd","3rd","4th","11th","12th","13th","21st". -/
theorem get_ordinal_spec (n : ℕ) (hn : 0 < n) :
    (11 ≤ n % 100 ∧ n % 100 ≤ 13 → get_ordinal n = toString n ++ "th") ∧
    (¬(11 ≤ n % 100 ∧ n % 100 ≤ 13) →
      (n % 10 = 1 → get_ordinal n = toString n ++ "st") ∧
      (n % 10 = 2 → get_ordinal n = toString n ++ "nd") ∧
      (n % 10 = 3 → get_ordinal n = toString n ++ "rd") ∧
      (n % 10 = 0 ∨ 4 ≤ n % 10 → get_ordinal n = toString n ++ "th")) ∧
    get_ordinal 1 = "1st" ∧ get_ordinal 2 = "2nd" ∧ get_ordinal 3 = "3rd" ∧
    get_ordinal 4 = "4th" ∧ get_ordinal 11 = "11th" ∧ get_ordinal 12 = "12th" ∧
    get_ordinal 13 = "13th" ∧ get_ordinal 21 = "21st" := by
  refine ⟨?_, ?_, by decide, by decide, by decide, by decide, by decide,
    by decide, by decide, by decide⟩
  · intro h
    unfold get_ordinal ordinal_suffix
    rw [if_pos h]
  · intro h
    refine ⟨?_, ?_, ?_, ?_⟩ <;> intro h10 <;> unfold get_ordinal ordinal_suffix <;>
      rw [if_neg h]
    · rw [h10]; congr 1
    · rw [h10]; congr 1
    · rw [h10]; congr 1
    · rcases h10 with h10 | h10
      · rw [h10]; congr 1
      · rw [Nat.min_eq_right h10]; congr 1

/-- Witness for C8 at `n = 21`. -/
theorem get_ordinal_spec_witness :
    ¬(11 ≤ 21 % 100 ∧ 21 % 100 ≤ 13) ∧ 21 % 10 = 1 ∧
      get_ordinal 21 = toString 21 ++ "st" :=
  ⟨by decide, by decide,
    ((get_ordinal_spec 21 (by decide)).2.1 (by decide)).1 (by decide)⟩

/-- Weekly bucket key `(year, month, weekOfMonth)`.  The source keys buckets
by the string `f"{year}-{month:02d}-{week}"` and sorts those strings; within
one call all entries share the selected 4-digit year, the month is
zero-padded to two digits and the week is a single digit 1-5, so string order
coincides with lexicographic order on this numeric triple. -/
abbrev WKey : Type := ℕ × ℕ × ℕ

/-- Lexicographic (chronological) order on weekly bucket keys. -/
def wkeyLe (a b : WKey) : Prop :=
  a.1 < b.1 ∨ (a.1 = b.1 ∧
    (a.2.1 < b.2.1 ∨ (a.2.1 = b.2.1 ∧ a.2.2 ≤ b.2.2)))

instance : DecidableRel wkeyLe := fun a b => by
  unfold wkeyLe; infer_instance

/-- Weekly buckets compared by key only. -/
def wpairLe (a b : WKey × (ℚ × ℚ)) : Prop := wkeyLe a.1 b.1

instance : DecidableRel wpairLe := fun a b => by
  unfold wpairLe; infer_instance

instance : IsTotal (WKey × (ℚ × ℚ)) wpairLe :=
  ⟨fun a b => by unfold wpairLe wkeyLe; omega⟩

instance : IsTrans (WKey × (ℚ × ℚ)) wpairLe :=
  ⟨fun a b c h1 h2 => by unfold wpairLe wkeyLe at h1 h2 ⊢; omega⟩

/-- `week_of_month = (entry_date.day() - 1) // 7 + 1` from
`show_weekly_stats`. -/
def week_of_month (day : ℕ) : ℕ := (day - 1) / 7 + 1

/-- Add `units`/`cost` into the bucket keyed `k`, appending the key when
absent.  (Python dicts keep insertion order; the presentation order comes
from sorting the keys afterwards, so only the key/value contents matter.) -/
def bucketAdd (k : WKey) (u c : ℚ) :
    List (WKey × (ℚ × ℚ)) → List (WKey × (ℚ × ℚ))
  | [] => [(k, (u, c))]
  | (k2, v) :: rest =>
    if k2 = k then (k2, (v.1 + u, v.2 + c)) :: rest
    else (k2, v) :: bucketAdd k u c rest

/-- Loop body of `show_weekly_stats`: skip entries outside the selected
year, otherwise accumulate into the `(year, month, week)` bucket. -/
def weeklyStep (year : ℕ) (acc : List (WKey × (ℚ × ℚ))) (e : Entry) :
    List (WKey × (ℚ × ℚ)) :=
  if e.date.year = year then
    bucketAdd (e.date.year, e.date.month, week_of_month e.date.day)
      e.units e.total_cost acc
  else acc

/-- The `weekly_data` dict of `show_weekly_stats`: fold over the history,
skipping entries outside the selected year. -/
def weeklyRaw (history : List Entry) (year : ℕ) : List (WKey × (ℚ × ℚ)) :=
  history.foldl (weeklyStep year) []

/-- `show_weekly_stats`: weekly buckets of the selected year, presented in
sorted (chronological) key order. -/
def show_weekly_stats (history : List Entry) (year : ℕ) :
    List (WKey × (ℚ × ℚ)) :=
  List.insertionSort wpairLe (weeklyRaw history year)

theorem mem_keys_bucketAdd (k : WKey) (u c : ℚ)
    (acc : List (WKey × (ℚ × ℚ))) :
    k ∈ (bucketAdd k u c acc).map Prod.fst := by
  induction acc with
  | nil => simp [bucketAdd]
  | cons p rest ih =>
    obtain ⟨k2, v⟩ := p
    simp only [bucketAdd]
    by_cases h : k2 = k
    · rw [if_pos h]; simp [h]
    · rw [if_neg h]; simpa using Or.inr ih

theorem keys_bucketAdd_mono {k' : WKey} (k : WKey) (u c : ℚ)
    (acc : List (WKey × (ℚ × ℚ))) (h : k' ∈ acc.map Prod.fst) :
    k' ∈ (bucketAdd k u c acc).map Prod.fst := by
  induction acc with
  | nil => simp at h
  | cons p rest ih =>
    obtain ⟨k2, v⟩ := p
    simp only [bucketAdd]
    by_cases hk : k2 = k
    · rw [if_pos hk]
      simpa using h
    · rw [if_neg hk]
      simp only [List.map_cons, List.mem_cons] at h ⊢
      rcases h with h | h
      · exact Or.inl h
      · exact Or.inr (ih h)

theorem weeklyRaw_key_mem_aux (year : ℕ) (l : List Entry)
    (acc : List (WKey × (ℚ × ℚ))) :
    (∀ k' ∈ acc.map Prod.fst,
      k' ∈ (l.foldl (weeklyStep year) acc).map Prod.fst) ∧
    (∀ e ∈ l, e.date.year = year →
      (e.date.year, e.date.month, week_of_month e.date.day)
        ∈ (l.foldl (weeklyStep year) acc).map Prod.fst) := by
  induction l generalizing acc with
  | nil => exact ⟨fun k' h => h, by simp⟩
  | cons x xs ih =>
    obtain ⟨ih1, ih2⟩ := ih (weeklyStep year acc x)
    constructor
    · intro k' hk'
      apply ih1
      unfold weeklyStep
      by_cases hx : x.date.year = year
      · rw [if_pos hx]
        exact keys_bucketAdd_mono _ _ _ _ hk'
      · rw [if_neg hx]
        exact hk'
    · intro e he hey
      rcases List.mem_cons.mp he with rfl | he
      · apply ih1
        unfold weeklyStep
        rw [if_pos hey]
        exact mem_keys_bucketAdd _ _ _ _
      · exact ih2 e he hey

/-- Claim C3: every entry of the selected year with day-of-month `d` is
bucketed under key `(year, month, (d-1)/7 + 1)` — weeks never cross month
boundaries since the month is part of the key, and days 29-31 give week 5 —
and the resulting buckets are sorted chronologically by `(year, month,
week)`. -/
theorem show_weekly_stats_spec (history : List Entry) (year : ℕ) :
    List.Sorted wkeyLe ((show_weekly_stats history year).map Prod.fst) ∧
    (∀ e ∈ history, e.date.year = year →
      (year, e.date.month, week_of_month e.date.day)
        ∈ (show_weekly_stats history year).map Prod.fst) ∧
    week_of_month 29 = 5 ∧ week_of_month 31 = 5 ∧ week_of_month 1 = 1 := by
  refine ⟨?_, ?_, rfl, rfl, rfl⟩
  · have hs := List.sorted_insertionSort wpairLe (weeklyRaw history year)
    exact List.Pairwise.map Prod.fst (fun a b h => h) hs
  · intro e he hey
    have hperm : List.Perm (show_weekly_stats history year)
        (weeklyRaw history year) :=
      List.perm_insertionSort wpairLe (weeklyRaw history year)
    have hmem := (weeklyRaw_key_mem_aux year history []).2 e he hey
    rw [hey] at hmem
    exact ((hperm.map Prod.fst).mem_iff).mpr hmem

/-- Concrete entries for the weekly-bucketing example: 2024-01-29,
2024-01-31, 2024-02-01. -/
def entryJan29 : Entry :=
  { date := ⟨29, 1, 2024⟩, previous_reading := 0, new_reading := 10,
    units := 10, unit_cost := 12, total_cost := 120 }

def entryJan31 : Entry :=
  { date := ⟨31, 1, 2024⟩, previous_reading := 10, new_reading := 15,
    units := 5, unit_cost := 12, total_cost := 60 }

def entryFeb01 : Entry :=
  { date := ⟨1, 2, 2024⟩, previous_reading := 15, new_reading := 22,
    units := 7, unit_cost := 12, total_cost := 84 }

/-- Witness for C3: the 2024-01-29 entry lands in bucket (2024, 1, 5) —
week 5 of January — and the 2024-02-01 entry in bucket (2024, 2, 1). -/
theorem show_weekly_stats_spec_witness :
    ((2024 : ℕ), (1 : ℕ), (5 : ℕ)) ∈
      (show_weekly_stats [entryJan29, entryJan31, entryFeb01] 2024).map
        Prod.fst ∧
    ((2024 : ℕ), (2 : ℕ), (1 : ℕ)) ∈
      (show_weekly_stats [entryJan29, entryJan31, entryFeb01] 2024).map
        Prod.fst := by
  constructor
  · exact (show_weekly_stats_spec [entryJan29, entryJan31, entryFeb01]
      2024).2.1 entryJan29 (by simp) rfl
  · exact (show_weekly_stats_spec [entryJan29, entryJan31, entryFeb01]
      2024).2.1 entryFeb01 (by simp) rfl

/-- One row of `devices_data`: the dict built in `add_device`. -/
structure Device where
  name : String
  power_watts : ℚ
  hours_per_day : ℚ
  daily_kwh : ℚ
  monthly_kwh : ℚ
deriving DecidableEq

/-- Colour band of the estimation comparison message. -/
inductive Band where
  | close
  | actualHigher
  | actualLower
deriving DecidableEq

/-- The comparison shown by `update_usage_estimation` when actual usage for
the current month is available. -/
structure Comparison where
  actual : ℚ
  estimated : ℚ
  difference : ℚ
  band : Band
deriving DecidableEq

/-- Does `d` fall in the calendar month of `today`?  (The source compares
`QDate.month()` and `QDate.year()` against `QDate.currentDate()`.) -/
def sameMonth (d today : Date) : Bool :=
  d.month == today.month && d.year == today.year

/-- `this_month_actual`: sum of `units` over the entries of the current
calendar month. -/
def this_month_actual (history : List Entry) (today : Date) : ℚ :=
  ((history.filter (fun e => sameMonth e.date today)).map Entry.units).sum

/-- The comparison branch of `update_usage_estimation`:
`total_monthly_kwh` is summed over the device registry; with non-empty
history and `this_month_actual > 0` a comparison is produced
(`difference = actual - estimated`; "very close" when `|difference| < 1`,
"more than estimate" when `difference > 0`, else "less than estimate");
otherwise the "no data" message, modelled as `none`. -/
def update_usage_estimation (history : List Entry) (devices : List Device)
    (today : Date) : Option Comparison :=
  if history = [] then none
  else if 0 < this_month_actual history today then
    some { actual := this_month_actual history today,
           estimated := (devices.map Device.monthly_kwh).sum,
           difference := this_month_actual history today -
             (devices.map Device.monthly_kwh).sum,
           band :=
             if |this_month_actual history today -
                  (devices.map Device.monthly_kwh).sum| < 1 then .close
             else if 0 < this_month_actual history today -
                  (devices.map Device.monthly_kwh).sum then .actualHigher
             else .actualLower }
  else none

/-- A reference date used for the concrete scenarios "today". -/
def today0 : Date := ⟨15, 6, 2025⟩

/-- An entry in the month of `today0` with zero consumption (a save with
`new_reading = previous_reading` is accepted by the code, since only
negative consumption is rejected). -/
def entryZeroJun : Entry :=
  { date := ⟨10, 6, 2025⟩, previous_reading := 40, new_reading := 40,
    units := 0, unit_cost := 12, total_cost := 0 }

/-- Counterexample to C4 as stated: the ledger contains an entry for the
current calendar month, yet the comparison is `none` (the code keys the
"no data" branch on `this_month_actual > 0`, not on the existence of
current-month entries). -/
theorem update_usage_estimation_counterexample :
    update_usage_estimation [entryZeroJun] [] today0 = none ∧
    [entryZeroJun].filter (fun e => sameMonth e.date today0) ≠ [] := by
  have h0 : this_month_actual [entryZeroJun] today0 = 0 := by
    simp [this_month_actual, sameMonth, entryZeroJun, today0]
  constructor
  · unfold update_usage_estimation
    rw [if_neg (List.cons_ne_nil _ _), h0, if_neg (lt_irrefl 0)]
  · simp [entryZeroJun, sameMonth, today0]

/-- Claim C4 (amended): comparison is `none` exactly when the summed units
of the current month's entries are not positive (in particular when no
current-month entries exist or when the ledger is empty); otherwise the
result has `difference = actual - estimated` with band "close" when
`|difference| < 1`, "actualHigher" when `difference > 0`, else
"actualLower". -/
theorem update_usage_estimation_spec (history : List Entry)
    (devices : List Device) (today : Date) :
    (update_usage_estimation history devices today = none ↔
      this_month_actual history today ≤ 0) ∧
    (∀ c, update_usage_estimation history devices today = some c →
      c.actual = this_month_actual history today ∧
      c.estimated = (devices.map Device.monthly_kwh).sum ∧
      c.difference = c.actual - c.estimated ∧
      c.band = (if |c.difference| < 1 then .close
                else if 0 < c.difference then .actualHigher
                else .actualLower)) := by
  unfold update_usage_estimation
  by_cases hh : history = []
  · rw [if_pos hh]
    constructor
    · simp only [true_iff]
      subst hh
      unfold this_month_actual
      simp
    · intro c hc
      exact absurd hc (by simp)
  · rw [if_neg hh]
    by_cases hm : 0 < this_month_actual history today
    · rw [if_pos hm]
      constructor
      · constructor
        · intro hc
          exact absurd hc (by simp)
        · intro hc
          exact absurd hm (by linarith)
      · intro c hc
        have hc' := Option.some.inj hc
        subst hc'
        exact ⟨rfl, rfl, rfl, rfl⟩
    · rw [if_neg hm]
      constructor
      · simp only [true_iff]
        linarith [not_lt.mp hm]
      · intro c hc
        exact absurd hc (by simp)

/-- The comparison produced for a ledger holding only `entryJan10`, with no
devices, mid-January 2024. -/
def comparisonJan : Comparison :=
  { actual := 50, estimated := 0, difference := 50, band := .actualHigher }

/-- Witness for C4 (amended): a positive current-month entry produces a
comparison with the stated difference and band fields. -/
theorem update_usage_estimation_spec_witness :
    comparisonJan.actual = this_month_actual [entryJan10] (Date.mk 15 1 2024) ∧
    comparisonJan.estimated =
      (([] : List Device).map Device.monthly_kwh).sum ∧
    comparisonJan.difference = comparisonJan.actual - comparisonJan.estimated ∧
    comparisonJan.band = (if |comparisonJan.difference| < 1 then .close
      else if 0 < comparisonJan.difference then .actualHigher
      else .actualLower) :=
  (update_usage_estimation_spec [entryJan10] [] (Date.mk 15 1 2024)).2
    comparisonJan (by
      have h1 : this_month_actual [entryJan10] (Date.mk 15 1 2024) = 50 := by
        simp [this_month_actual, sameMonth, entryJan10]
      unfold update_usage_estimation
      rw [if_neg (List.cons_ne_nil _ _), h1]
      norm_num [comparisonJan])

/-- The four entries of the history filter dropdown. -/
inductive FilterMode where
  | All
  | ThisMonth
  | ThisYear
  | CustomRange
deriving DecidableEq

/-- Date-descending comparison on entries, the order produced by
`sorted(..., key=date, reverse=True)`. -/
def entryDateGe (a b : Entry) : Prop := Date.le b.date a.date

instance : DecidableRel entryDateGe := fun a b => by
  unfold entryDateGe; infer_instance

instance : IsTotal Entry entryDateGe :=
  ⟨fun a b => Date.le_total b.date a.date⟩

instance : IsTrans Entry entryDateGe :=
  ⟨fun _ _ _ h1 h2 => Date.le_trans h2 h1⟩

/-- The per-entry test of `filter_history` for each dropdown mode. -/
def filterPred (mode : FilterMode) (today startDate endDate : Date)
    (e : Entry) : Bool :=
  match mode with
  | .All => true
  | .ThisMonth => e.date.month == today.month && e.date.year == today.year
  | .ThisYear => e.date.year == today.year
  | .CustomRange =>
    decide (Date.le startDate e.date) && decide (Date.le e.date endDate)

/-- `filter_history`: empty history short-circuits to `[]`; otherwise the
history is sorted by date descending and the entries passing the selected
mode's test are kept (the loop appends matches in sorted order, i.e. a
filter of the sorted list). -/
def filter_history (history : List Entry) (mode : FilterMode)
    (today startDate endDate : Date) : List Entry :=
  match history with
  | [] => []
  | _ =>
    (List.insertionSort entryDateGe history).filter
      (filterPred mode today startDate endDate)

theorem filter_history_eq (history : List Entry) (mode : FilterMode)
    (today startDate endDate : Date) :
    filter_history history mode today startDate endDate =
      (List.insertionSort entryDateGe history).filter
        (filterPred mode today startDate endDate) := by
  cases history with
  | nil => rfl
  | cons x xs => rfl

/-- Claim C6: for every ledger and every mode, `filter_history` returns the
matching entries (as a permutation of the corresponding filter of the
ledger) sorted by date descending; ThisMonth keeps exactly the entries of
the current calendar month and year, ThisYear those of the current year,
and CustomRange those with date in the inclusive interval `[start, end]`. -/
theorem filter_history_spec (history : List Entry) (mode : FilterMode)
    (today startDate endDate : Date) :
    List.Sorted entryDateGe
      (filter_history history mode today startDate endDate) ∧
    (mode = .ThisMonth →
      List.Perm (filter_history history mode today startDate endDate)
        (history.filter (fun e =>
          e.date.month == today.month && e.date.year == today.year))) ∧
    (mode = .ThisYear →
      List.Perm (filter_history history mode today startDate endDate)
        (history.filter (fun e => e.date.year == today.year))) ∧
    (mode = .CustomRange →
      List.Perm (filter_history history mode today startDate endDate)
        (history.filter (fun e =>
          decide (Date.le startDate e.date) &&
            decide (Date.le e.date endDate)))) ∧
    (mode = .All →
      List.Perm (filter_history history mode today startDate endDate)
        history) := by
  have hperm : List.Perm (List.insertionSort entryDateGe history) history :=
    List.perm_insertionSort entryDateGe history
  rw [filter_history_eq]
  refine ⟨?_, ?_, ?_, ?_, ?_⟩
  · exact (List.sorted_insertionSort entryDateGe history).filter _
  · rintro rfl
    exact hperm.filter _
  · rintro rfl
    exact hperm.filter _
  · rintro rfl
    exact hperm.filter _
  · rintro rfl
    have h := hperm.filter (filterPred .All today startDate endDate)
    have heq :
        history.filter (filterPred FilterMode.All today startDate endDate) =
          history := List.filter_true history
    rw [heq] at h
    exact h

/-- Witness for C6: ThisMonth (for January 2024) over a three-entry ledger
keeps exactly the two January entries. -/
theorem filter_history_spec_witness :
    List.Perm
      (filter_history [entryFeb01, entryJan05, entryJan10] .ThisMonth
        (Date.mk 20 1 2024) (Date.mk 1 1 2024) (Date.mk 31 1 2024))
      ([entryFeb01, entryJan05, entryJan10].filter (fun e =>
        e.date.month == (Date.mk 20 1 2024).month &&
          e.date.year == (Date.mk 20 1 2024).year)) :=
  (filter_history_spec [entryFeb01, entryJan05, entryJan10]
    .ThisMonth (Date.mk 20 1 2024) (Date.mk 1 1 2024)
    (Date.mk 31 1 2024)).2.1 rfl

/-- Python `str.lower()` (per-character lowercasing, as for the ASCII device
names at hand). -/
def strLower (s : String) : String := ⟨s.data.map Char.toLower⟩

/-- Python `str.strip()`: drop leading and trailing whitespace. -/
def strStrip (s : String) : String :=
  ⟨((s.data.dropWhile Char.isWhitespace).reverse.dropWhile
      Char.isWhitespace).reverse⟩

/-- In-memory ledger (`self.history_data`) together with the persisted
history file, each an ordered list of entries. -/
structure LedgerState where
  history_data : List Entry
  history_file : List Entry
deriving DecidableEq

/-- The entry dict built by `save_entry` from the derived current reading,
the new reading and the chosen date. -/
def saved_entry (current new_reading : ℚ) (date : Date) : Entry :=
  { date := date, previous_reading := current, new_reading := new_reading,
    units := new_reading - current, unit_cost := unit_cost,
    total_cost := (new_reading - current) * unit_cost }

/-- `save_entry` over a ledger state.  `newInput` is the parsed text of the
new-reading field (`none` when `float()` raises, before any mutation).  The
current reading is the value re-derived from the ledger after every prior
mutation (`self.current_reading = get_initial_reading()`).  `writeOk` says
whether the whole-file write in `save_history` succeeds; on failure the
exception is caught and a warning shown, the file keeps its old contents,
but the in-memory append has already happened and is not rolled back.
Returns the new state and whether the entry was accepted. -/
def save_entry (st : LedgerState) (initialFile : Option ℚ)
    (newInput : Option ℚ) (date : Date) (writeOk : Bool) :
    LedgerState × Bool :=
  match newInput with
  | none => (st, false)
  | some new_reading =>
    if new_reading - get_initial_reading st.history_data initialFile < 0 then
      (st, false)
    else
      ({ history_data := st.history_data ++
           [saved_entry (get_initial_reading st.history_data initialFile)
             new_reading date],
         history_file :=
           if writeOk then
             st.history_data ++
               [saved_entry (get_initial_reading st.history_data initialFile)
                 new_reading date]
           else st.history_file }, true)

/-- In-memory device registry (`self.devices_data`) together with the
persisted devices file. -/
structure DeviceState where
  devices_data : List Device
  devices_file : List Device
deriving DecidableEq

/-- The device dict built by `add_device`. -/
def new_device (name : String) (power hours : ℚ) : Device :=
  { name := name, power_watts := power, hours_per_day := hours,
    daily_kwh := power * hours / 1000,
    monthly_kwh := power * hours * 30 / 1000 }

/-- `add_device`: parse failures (`none` inputs), empty stripped name,
non-positive power or hours, hours above 24, and a case-insensitive
duplicate name are all rejected before any mutation.  On success the device
is appended in memory and the file rewritten when the write succeeds
(`writeOk`); a failed write is caught in `save_devices` with a warning and
the file keeps its old contents. -/
def add_device (st : DeviceState) (nameInput : String)
    (powerInput hoursInput : Option ℚ) (writeOk : Bool) :
    DeviceState × Bool :=
  match powerInput, hoursInput with
  | some power, some hours =>
    if strStrip nameInput = "" then (st, false)
    else if power ≤ 0 ∨ hours ≤ 0 then (st, false)
    else if 24 < hours then (st, false)
    else if st.devices_data.any
        (fun d => strLower d.name == strLower (strStrip nameInput)) then
      (st, false)
    else
      ({ devices_data := st.devices_data ++
           [new_device (strStrip nameInput) power hours],
         devices_file :=
           if writeOk then
             st.devices_data ++ [new_device (strStrip nameInput) power hours]
           else st.devices_file }, true)
  | none, _ => (st, false)
  | _, none => (st, false)

/-- `remove_device`: keep exactly the devices whose stored name differs
(case-sensitively) from the given name, then persist. -/
def remove_device (st : DeviceState) (device_name : String)
    (writeOk : Bool) : DeviceState :=
  { devices_data := st.devices_data.filter (fun d => d.name != device_name),
    devices_file :=
      if writeOk then
        st.devices_data.filter (fun d => d.name != device_name)
      else st.devices_file }

/-- A one-entry ledger state (entry dated 05-01-2024, reading 120), with the
file in sync. -/
def stL0 : LedgerState :=
  { history_data := [entryJan05], history_file := [entryJan05] }

/-- Counterexample to C5 as stated: a save whose validation passes but whose
file write fails leaves the persisted file at its pre-call value while the
in-memory ledger has still gained the entry — the effect is partially
applied, contradicting "after any failed append both the in-memory
collection and the persisted file equal their pre-call values". -/
theorem save_entry_counterexample :
    (save_entry stL0 none (some 200) (Date.mk 1 2 2024) false).1.history_data
      ≠ stL0.history_data ∧
    (save_entry stL0 none (some 200) (Date.mk 1 2 2024) false).1.history_file
      = stL0.history_file := by
  have hcur : get_initial_reading stL0.history_data none = 120 := rfl
  have heval : save_entry stL0 none (some 200) (Date.mk 1 2 2024) false =
      ({ history_data := stL0.history_data ++
           [saved_entry 120 200 (Date.mk 1 2 2024)],
         history_file := stL0.history_file }, true) := by
    simp only [save_entry]
    rw [hcur, if_neg (by norm_num)]
    rfl
  rw [heval]
  exact ⟨by simp, rfl⟩

/-- Claim C5 (amended): every input-validation rejection (non-numeric or
negative-consumption reading; non-numeric, empty-name, non-positive,
over-24-hours or duplicate device) leaves both the in-memory collection and
the persisted file unchanged; a persistence failure on an otherwise valid
save leaves the persisted file unchanged but the in-memory collection still
gains the appended element (the append is not rolled back). -/
theorem atomicity_spec (st : LedgerState) (initialFile : Option ℚ)
    (date : Date) (writeOk : Bool) (dst : DeviceState) (nameInput : String) :
    save_entry st initialFile none date writeOk = (st, false) ∧
    (∀ v : ℚ, v - get_initial_reading st.history_data initialFile < 0 →
      save_entry st initialFile (some v) date writeOk = (st, false)) ∧
    (∀ v : ℚ, ¬(v - get_initial_reading st.history_data initialFile < 0) →
      (save_entry st initialFile (some v) date false).1.history_file =
        st.history_file ∧
      (save_entry st initialFile (some v) date false).1.history_data =
        st.history_data ++
          [saved_entry (get_initial_reading st.history_data initialFile)
            v date]) ∧
    (∀ p h : Option ℚ, add_device dst nameInput none h writeOk =
        (dst, false) ∧
      add_device dst nameInput p none writeOk = (dst, false)) ∧
    (∀ power hours : ℚ,
      (strStrip nameInput = "" ∨ (power ≤ 0 ∨ hours ≤ 0) ∨ 24 < hours ∨
        dst.devices_data.any
          (fun d => strLower d.name == strLower (strStrip nameInput)) =
            true) →
      add_device dst nameInput (some power) (some hours) writeOk =
        (dst, false)) ∧
    (∀ power hours : ℚ,
      ¬(strStrip nameInput = "") → ¬(power ≤ 0 ∨ hours ≤ 0) →
      ¬(24 < hours) →
      ¬(dst.devices_data.any
          (fun d => strLower d.name == strLower (strStrip nameInput)) =
            true) →
      (add_device dst nameInput (some power) (some hours) false).1.devices_file
        = dst.devices_file ∧
      (add_device dst nameInput (some power) (some hours) false).1.devices_data
        = dst.devices_data ++
            [new_device (strStrip nameInput) power hours]) := by
  refine ⟨rfl, ?_, ?_, ?_, ?_, ?_⟩
  · intro v hv
    simp only [save_entry]
    rw [if_pos hv]
  · intro v hv
    simp only [save_entry]
    rw [if_neg hv]
    exact ⟨rfl, rfl⟩
  · intro p h
    constructor
    · cases h <;> rfl
    · cases p <;> rfl
  · intro power hours hrej
    simp only [add_device]
    split_ifs with h1 h2 h3 h4 h5
    · rfl
    · rfl
    · rfl
    · rfl
    · exfalso
      rcases hrej with h | h | h | h
      exacts [h1 h, h2 h, h3 h, h4 h]
    · exfalso
      rcases hrej with h | h | h | h
      exacts [h1 h, h2 h, h3 h, h4 h]
  · intro power hours h1 h2 h3 h4
    simp only [add_device]
    rw [if_neg h1, if_neg h2, if_neg h3, if_neg h4]
    exact ⟨rfl, rfl⟩

/-- Witness for C5 (amended) at concrete inputs: a non-numeric save and a
negative-consumption save both leave `stL0` untouched. -/
theorem atomicity_spec_witness :
    save_entry stL0 none none (Date.mk 1 2 2024) true = (stL0, false) ∧
    save_entry stL0 none (some 100) (Date.mk 1 2 2024) true =
      (stL0, false) :=
  ⟨(atomicity_spec stL0 none (Date.mk 1 2 2024) true ⟨[], []⟩ "x").1,
   (atomicity_spec stL0 none (Date.mk 1 2 2024) true ⟨[], []⟩ "x").2.1 100
     (by show (100 : ℚ) - 120 < 0; norm_num)⟩

/-- Claim C7: `add` rejects a device whose (stripped) name collides
case-insensitively with an existing one, while `remove` filters by exact,
case-sensitive equality — so "Fridge" added and then removed via "fridge"
survives in the registry. -/
theorem device_case_spec (st : DeviceState) (nameInput : String)
    (power hours : ℚ) (writeOk : Bool) :
    ((∃ d ∈ st.devices_data,
        strLower d.name = strLower (strStrip nameInput)) →
      add_device st nameInput (some power) (some hours) writeOk =
        (st, false)) ∧
    (∀ nm : String, ∀ w : Bool, ∀ d : Device,
      (d ∈ (remove_device st nm w).devices_data ↔
        d ∈ st.devices_data ∧ d.name ≠ nm)) ∧
    (∃ d ∈ (remove_device
        (add_device ⟨[], []⟩ "Fridge" (some 200) (some 5) true).1
        "fridge" true).devices_data, d.name = "Fridge") := by
  refine ⟨?_, ?_, ?_⟩
  · intro hdup
    have hany : (st.devices_data.any
        (fun d => strLower d.name == strLower (strStrip nameInput))) = true := by
      rw [List.any_eq_true]
      obtain ⟨d, hd, hdl⟩ := hdup
      exact ⟨d, hd, by rw [hdl]; exact beq_self_eq_true _⟩
    simp only [add_device]
    split_ifs with h1 h2 h3
    · rfl
    · rfl
    · rfl
    · rfl
  · intro nm w d
    unfold remove_device
    simp [List.mem_filter, bne_iff_ne]
  · refine ⟨new_device "Fridge" 200 5, ?_, rfl⟩
    have hs : strStrip "Fridge" = "Fridge" := by decide
    have hadd : (add_device ⟨[], []⟩ "Fridge" (some 200) (some 5) true).1 =
        ⟨[new_device "Fridge" 200 5], [new_device "Fridge" 200 5]⟩ := by
      simp only [add_device]
      rw [hs, if_neg (by decide), if_neg (by norm_num), if_neg (by norm_num),
        if_neg (by simp)]
      rfl
    rw [hadd]
    simp only [remove_device]
    exact List.mem_filter.mpr ⟨by simp, by decide⟩

/-- Witness for C7: adding "fridge" to a registry already holding "Fridge"
is rejected, leaving the registry unchanged. -/
theorem device_case_spec_witness :
    add_device ⟨[new_device "Fridge" 200 5], [new_device "Fridge" 200 5]⟩
      "fridge" (some 100) (some 10) true =
    (⟨[new_device "Fridge" 200 5], [new_device "Fridge" 200 5]⟩, false) :=
  (device_case_spec
    ⟨[new_device "Fridge" 200 5], [new_device "Fridge" 200 5]⟩
    "fridge" 100 10 true).1
    ⟨new_device "Fridge" 200 5, by simp, by decide⟩

/-- The JSON values the history file holds (`json.dump`/`json.load` of a
list of string/number dicts; Python float literals are the rationals
here). -/
inductive Json where
  | num : ℚ → Json
  | str : String → Json
  | arr : List Json → Json
  | obj : List (String × Json) → Json

/-- The ASCII digit character for `n < 10`. -/
def digitChar (n : ℕ) : Char := Char.ofNat (48 + n)

/-- A zero-padded two-digit field, as `QDate.toString("dd-MM-yyyy")`
renders day and month (and each half of the 4-digit year). -/
def pad2 (n : ℕ) : List Char := [digitChar (n / 10), digitChar (n % 10)]

/-- The `"dd-MM-yyyy"` string stored in each entry's `date` field. -/
def date_to_string (d : Date) : String :=
  ⟨pad2 d.day ++ '-' :: pad2 d.month ++ '-' ::
    (pad2 (d.year / 100) ++ pad2 (d.year % 100))⟩

/-- The numeric value of an ASCII digit character. -/
def digit? (c : Char) : Option ℕ :=
  if '0' ≤ c ∧ c ≤ '9' then some (c.toNat - 48) else none

/-- Parse a two-digit numeric field. -/
def parse2 (l : List Char) : Option ℕ :=
  match l with
  | [a, b] =>
    match digit? a, digit? b with
    | some x, some y => some (10 * x + y)
    | _, _ => none
  | _ => none

/-- `QDate.fromString(s, "dd-MM-yyyy")`: two digits, dash, two digits, dash,
four digits. -/
def date_from_string (s : String) : Option Date :=
  match s.data with
  | [d1, d2, c1, m1, m2, c2, y1, y2, y3, y4] =>
    if c1 = '-' ∧ c2 = '-' then
      match parse2 [d1, d2], parse2 [m1, m2],
          parse2 [y1, y2], parse2 [y3, y4] with
      | some dd, some mm, some yhi, some ylo =>
        some ⟨dd, mm, 100 * yhi + ylo⟩
      | _, _, _, _ => none
    else none
  | _ => none

/-- The JSON object `json.dump` writes for one entry (field order as built
in `save_entry`). -/
def entry_to_json (e : Entry) : Json :=
  .obj [("date", .str (date_to_string e.date)),
        ("previous_reading", .num e.previous_reading),
        ("new_reading", .num e.new_reading),
        ("units", .num e.units),
        ("unit_cost", .num e.unit_cost),
        ("total_cost", .num e.total_cost)]

/-- Decode one entry object back, reading the date string as the rest of
the program does (`QDate.fromString`). -/
def entry_of_json : Json → Option Entry
  | .obj [(k1, .str s), (k2, .num p), (k3, .num n),
          (k4, .num u), (k5, .num uc), (k6, .num tc)] =>
    if k1 = "date" ∧ k2 = "previous_reading" ∧ k3 = "new_reading" ∧
        k4 = "units" ∧ k5 = "unit_cost" ∧ k6 = "total_cost" then
      match date_from_string s with
      | some d => some ⟨d, p, n, u, uc, tc⟩
      | none => none
    else none
  | _ => none

/-- `save_history`: the file receives the JSON array of all entries. -/
def save_history (history : List Entry) : Json :=
  .arr (history.map entry_to_json)

/-- Decode a list of entry objects; any malformed element fails the load. -/
def load_entries : List Json → Option (List Entry)
  | [] => some []
  | j :: rest =>
    match entry_of_json j, load_entries rest with
    | some e, some es => some (e :: es)
    | _, _ => none

/-- `load_history` on a readable file: the parsed JSON array, decoded. -/
def load_history : Json → Option (List Entry)
  | .arr l => load_entries l
  | _ => none

theorem parse2_pad2 : ∀ n < 100, parse2 (pad2 n) = some n := by decide

theorem date_round_trip (d : Date) (hd : d.day < 100) (hm : d.month < 100)
    (hy : d.year < 10000) :
    date_from_string (date_to_string d) = some d := by
  have h1 := parse2_pad2 d.day hd
  have h2 := parse2_pad2 d.month hm
  have h3 := parse2_pad2 (d.year / 100) (by omega)
  have h4 := parse2_pad2 (d.year % 100) (Nat.mod_lt _ (by norm_num))
  simp only [pad2] at h1 h2 h3 h4
  simp only [date_to_string, date_from_string, pad2, List.cons_append,
    List.nil_append, and_self, if_true]
  rw [h1, h2, h3, h4]
  simp only [Nat.div_add_mod]

theorem entry_round_trip (e : Entry) (hd : e.date.day < 100)
    (hm : e.date.month < 100) (hy : e.date.year < 10000) :
    entry_of_json (entry_to_json e) = some e := by
  simp only [entry_to_json, entry_of_json, and_self, if_true]
  rw [date_round_trip e.date hd hm hy]

/-- Claim C9: persisting any ledger whose dates fit the `"dd-MM-yyyy"`
format and then loading it back yields the identical ordered sequence of
entries, field for field. -/
theorem save_load_round_trip (history : List Entry)
    (h : ∀ e ∈ history,
      e.date.day < 100 ∧ e.date.month < 100 ∧ e.date.year < 10000) :
    load_history (save_history history) = some history := by
  simp only [save_history, load_history]
  induction history with
  | nil => rfl
  | cons x xs ih =>
    obtain ⟨hd, hm, hy⟩ := h x (List.mem_cons_self _ _)
    simp only [List.map_cons, load_entries]
    rw [entry_round_trip x hd hm hy,
      ih (fun e he => h e (List.mem_cons_of_mem _ he))]

/-- Witness for C9 at a concrete two-entry ledger. -/
theorem save_load_round_trip_witness :
    load_history (save_history [entryJan10, entryJan05]) =
      some [entryJan10, entryJan05] :=
  save_load_round_trip [entryJan10, entryJan05] (by decide)

/-- One user save action: the chosen date and the parsed new reading. -/
structure SaveReq where
  date : Date
  new_reading : ℚ

/-- A sequence of save actions applied to a ledger state (each successful
write persists, as in the app's normal operation). -/
def apply_saves (init : Option ℚ) (st : LedgerState) (reqs : List SaveReq) :
    LedgerState :=
  reqs.foldl (fun s r => (save_entry s init (some r.new_reading) r.date true).1) st

/-- The arithmetic invariant every stored entry is claimed to satisfy. -/
def good_entry (e : Entry) : Prop :=
  e.units = e.new_reading - e.previous_reading ∧
  e.total_cost = e.units * e.unit_cost

theorem apply_saves_good (init : Option ℚ) (reqs : List SaveReq) :
    ∀ st : LedgerState, (∀ e ∈ st.history_data, good_entry e) →
      ∀ e ∈ (apply_saves init st reqs).history_data, good_entry e := by
  induction reqs with
  | nil => exact fun st hst e he => hst e he
  | cons r rs ih =>
    intro st hst e he
    refine ih ((save_entry st init (some r.new_reading) r.date true).1)
      ?_ e he
    intro x hx
    by_cases hneg :
        r.new_reading - get_initial_reading st.history_data init < 0
    · simp only [save_entry] at hx
      rw [if_pos hneg] at hx
      exact hst x hx
    · simp only [save_entry] at hx
      rw [if_neg hneg] at hx
      simp only [List.mem_append, List.mem_singleton] at hx
      rcases hx with hx | rfl
      · exact hst x hx
      · exact ⟨rfl, rfl⟩

/-- Claim C10: a successful save appends an entry whose `previous_reading`
is the current reading derived from the pre-save ledger (max-date entry,
else stored initial reading, else 0) — for every chosen date, including
dates earlier than the ledger's maximum — and every ledger reachable by
saves from an empty ledger has all entries satisfying
`units = new_reading - previous_reading` and
`total_cost = units * unit_cost`. -/
theorem save_entry_previous_reading_spec (st : LedgerState)
    (init : Option ℚ) (v : ℚ) (date : Date) (writeOk : Bool) :
    (¬(v - get_initial_reading st.history_data init < 0) →
      (save_entry st init (some v) date writeOk).1.history_data =
        st.history_data ++
          [saved_entry (get_initial_reading st.history_data init) v date] ∧
      (saved_entry (get_initial_reading st.history_data init) v
          date).previous_reading =
        get_initial_reading st.history_data init ∧
      good_entry
        (saved_entry (get_initial_reading st.history_data init) v date)) ∧
    (∀ reqs : List SaveReq,
      ∀ e ∈ (apply_saves init ⟨[], []⟩ reqs).history_data, good_entry e) := by
  constructor
  · intro hneg
    refine ⟨?_, rfl, rfl, rfl⟩
    simp only [save_entry]
    rw [if_neg hneg]
  · exact fun reqs => apply_saves_good init reqs ⟨[], []⟩ (by simp)

/-- A one-entry ledger state holding the 10-01-2024 entry (reading 150). -/
def stL1 : LedgerState :=
  { history_data := [entryJan10], history_file := [entryJan10] }

/-- Witness for C10: a save back-dated to 05-01-2024 against a ledger whose
maximum date is 10-01-2024 still takes `previous_reading` from the
10-01-2024 entry's `new_reading` (150). -/
theorem save_entry_previous_reading_spec_witness :
    (save_entry stL1 none (some 200) (Date.mk 5 1 2024) true).1.history_data =
      stL1.history_data ++
        [saved_entry (get_initial_reading stL1.history_data none) 200
          (Date.mk 5 1 2024)] ∧
    (saved_entry (get_initial_reading stL1.history_data none) 200
        (Date.mk 5 1 2024)).previous_reading =
      get_initial_reading stL1.history_data none ∧
    good_entry (saved_entry (get_initial_reading stL1.history_data none) 200
      (Date.mk 5 1 2024)) :=
  (save_entry_previous_reading_spec stL1 none 200 (Date.mk 5 1 2024) true).1
    (by show ¬((200 : ℚ) - 150 < 0); norm_num)

end EBill
